import Mathlib

/-!
Shallow embedding of the `dfsolver` crate (a DragonFjord "A-Puzzle-A-Day"
backtracking solver) and proofs about its specification.

Conventions of the embedding:
* Rust `usize` values are modelled as `Nat`.  A `usize` subtraction that can
  underflow (a debug-build panic in Rust) is modelled by `checkedSub`, which
  returns `none` exactly when Rust would panic.
* A Rust operation that can panic (`Vec` indexing, `Vec::swap`, slice ranges,
  explicit `panic!`) is modelled as an `Option`-valued function; `none` models
  the panic.
* The Rust struct `Shape` stores `rows`/`cols` as `Option<usize>`; every
  `Array2D` built through the `array2D!` macro or used by the puzzle code has
  both set to `Some`, and the code immediately `unwrap`s them everywhere, so
  the embedding stores the unwrapped `rows` and `cols` directly.
* Loops are modelled by folds over `List.range`; the `while` loop of
  `transpose` (whose bound is not syntactic) takes explicit fuel, and we prove
  the fuel is sufficient.
-/

/-- Rust debug-build `usize` subtraction: panics (here `none`) on underflow. -/
def checkedSub (a b : Nat) : Option Nat :=
  if b ≤ a then some (a - b) else none

/-- Rust `Vec::swap i j`: panics (here `none`) if an index is out of bounds. -/
def listSwap (l : List Nat) (i j : Nat) : Option (List Nat) :=
  if h : i < l.length ∧ j < l.length then
    some ((l.set i (l.get ⟨j, h.2⟩)).set j (l.get ⟨i, h.1⟩))
  else none

/-- Rust `&mut v[start..start+len]` followed by `reverse()`: reverses the
`len` elements starting at `start`; panics (here `none`) if the range does not
lie inside the vector. -/
def reverseSlice (l : List Nat) (start len : Nat) : Option (List Nat) :=
  if start + len ≤ l.length then
    some (l.take start ++ (l.drop start |>.take len).reverse ++ l.drop (start + len))
  else none

/-- The axes enumeration of `array_2d.rs` (`X` = vertical flip, `Y` =
horizontal flip). -/
inductive Axes where
  | X : Axes
  | Y : Axes

/-- The `Array2D` struct of `array_2d.rs`: a shape together with row-major
data.  `rows`/`cols` are the unwrapped values of the `Shape` struct (see the
module comment). -/
structure Array2D where
  rows : Nat
  cols : Nat
  data : List Nat
deriving DecidableEq, Repr

namespace Array2D

/-- `Array2D::get`: `self.data[self.shape.cols.unwrap() * row + col]`.  The
`Vec` index panics (here `none`) iff the flattened index is out of range of
the data; there is no check of `row`/`col` against the shape itself. -/
def get (a : Array2D) (row col : Nat) : Option Nat :=
  a.data.get? (a.cols * row + col)

/-- Modelled from the spec: `set(row, col, value)` ("same bound contract" as
`get`; "in-place mutation", §4.1).  The method is called by `board.rs` but its
definition is not among the source files; following the spec's bound contract
it fails for `row ≥ rows` or `col ≥ cols` and otherwise overwrites the
row-major cell. -/
def set (a : Array2D) (row col v : Nat) : Option Array2D :=
  if row < a.rows ∧ col < a.cols then
    some { a with data := a.data.set (a.cols * row + col) v }
  else none

/-- `Array2D::flip`.  The `Axes::X` arm iterates `row_index` over
`0..cols/2` (sic — the source uses `cols`, not `rows`) and swaps the cells of
row `row_index` with those of row `(rows - 1) - row_index`; both subtractions
are `usize` subtractions.  The `Axes::Y` arm reverses each row slice. -/
def flip (a : Array2D) (axes : Axes) : Option Array2D :=
  match axes with
  | Axes.X => do
    let d ← (List.range (a.cols / 2)).foldlM (fun d row_index =>
      (List.range a.cols).foldlM (fun d col_index => do
        let rm1 ← checkedSub a.rows 1
        let mrow ← checkedSub rm1 row_index
        listSwap d (row_index * a.cols + col_index) (mrow * a.cols + col_index)) d) a.data
    some { a with data := d }
  | Axes.Y => do
    let d ← (List.range a.rows).foldlM (fun d row_index =>
      reverseSlice d (row_index * a.cols) a.cols) a.data
    some { a with data := d }

/-- The index an element is fetched from by one step of the `transpose` cycle
walk: `if old_index == mn - 1 { mn - 1 } else { (cols * old_index) % (mn - 1) }`. -/
def transposeNewIndex (cols mn old : Nat) : Nat :=
  if old = mn - 1 then mn - 1 else (cols * old) % (mn - 1)

/-- The inner `loop` of `Array2D::transpose`, walking the cycle that starts at
`cycleStart`.  `fuel` bounds the number of iterations; we later prove that
`mn + 1` fuel never runs out (`none` from fuel exhaustion is unreachable). -/
def transposeCycle (cols mn cycleStart : Nat) :
    Nat → Nat → List Bool → List Nat → Option (List Bool × List Nat)
  | 0, _, _, _ => none
  | fuel + 1, oldIndex, visited, d =>
    let newIndex := transposeNewIndex cols mn oldIndex
    if newIndex = cycleStart then
      some (visited.set oldIndex true, d)
    else do
      let d ← listSwap d oldIndex newIndex
      transposeCycle cols mn cycleStart fuel newIndex (visited.set oldIndex true) d

/-- `Array2D::transpose`: the in-place cycle-following permutation, then the
shape fields are swapped. -/
def transpose (a : Array2D) : Option Array2D := do
  let mn := a.rows * a.cols
  let st ← (List.range mn).foldlM (fun (st : List Bool × List Nat) cycleStart =>
    if st.1.getD cycleStart false then some st
    else transposeCycle a.cols mn cycleStart (mn + 1) cycleStart st.1 st.2)
    (List.replicate mn false, a.data)
  some ⟨a.cols, a.rows, st.2⟩

/-- Rust `isize` remainder (`k % 4`) rounds toward zero. -/
def rustRem4 (k : Int) : Int :=
  if 0 ≤ k then k.emod 4 else -((-k).emod 4)

/-- `Array2D::rotate90`: `k` is reduced by `k % 4` and dispatched exactly as
the source `match`; the unreachable `_ => panic!` arm is `none`. -/
def rotate90 (a : Array2D) (k : Int) : Option Array2D :=
  let k := rustRem4 k
  if k = 0 then some a
  else if k = 1 ∨ k = -3 then do
    let b ← a.flip Axes.Y
    b.transpose
  else if k = 2 ∨ k = -2 then do
    let b ← a.flip Axes.X
    b.flip Axes.Y
  else if k = 3 ∨ k = -1 then do
    let b ← a.transpose
    b.flip Axes.Y
  else none

/-- `impl ops::Add for Array2D`: panics (here `none`) when the shapes differ,
otherwise zips the data with `+` and keeps `self`'s shape. -/
def add (a other : Array2D) : Option Array2D :=
  if a.rows = other.rows ∧ a.cols = other.cols then
    some { a with data := List.zipWith (· + ·) a.data other.data }
  else none

/-- The construction invariant enforced by the `array2D!` macro: the data is a
rectangle of `rows` rows of length `cols` (spec §3: "length == rows×cols"). -/
def wellFormed (a : Array2D) : Prop :=
  a.data.length = a.rows * a.cols

instance (a : Array2D) : Decidable a.wellFormed := by
  unfold wellFormed; infer_instance

end Array2D


/-!
## `piece.rs`
-/

/-- The `PiecePosition` struct of `piece.rs`: a valid orientation and board
position of a puzzle piece. -/
structure PiecePosition where
  name : String
  board_position : Nat × Nat
  orientation : Array2D
deriving DecidableEq, Repr

/-- The `PieceModel` struct of `piece.rs`. -/
structure PieceModel where
  name : String
  initial_orientation : Array2D
  current_orientation : Array2D
  board_position : Option (Nat × Nat)
  max_rotations : Nat
  is_flippable : Bool
  rotation_count : Nat
  translation_count : Nat
  has_flipped : Bool
  orientation_exhausted : Bool
  translation_exhausted : Bool
  is_used : Bool
deriving DecidableEq, Repr

namespace PieceModel

/-- `PieceModel::new`. -/
def new (name : String) (initial_orientation : Array2D) (max_rotations : Nat)
    (is_flippable : Bool) : PieceModel where
  name := name
  initial_orientation := initial_orientation
  current_orientation := initial_orientation
  board_position := none
  max_rotations := max_rotations
  is_flippable := is_flippable
  rotation_count := 0
  translation_count := 0
  has_flipped := false
  orientation_exhausted := false
  translation_exhausted := false
  is_used := false

/-- `PieceModel::rotate`: `rotate90(1)` on the current orientation, then the
rotation count is incremented. -/
def rotate (p : PieceModel) : Option PieceModel := do
  let o ← p.current_orientation.rotate90 1
  some { p with current_orientation := o, rotation_count := p.rotation_count + 1 }

/-- `PieceModel::flip`: flips the current orientation along `Axes::Y`, sets
`has_flipped` and clears the rotation count. -/
def flipPiece (p : PieceModel) : Option PieceModel := do
  let o ← p.current_orientation.flip Axes.Y
  some { p with current_orientation := o, has_flipped := true, rotation_count := 0 }

/-- `PieceModel::reset`: restores the initial orientation and clears the
counters and flags listed in the source (note: `is_used` is not assigned). -/
def reset (p : PieceModel) : PieceModel :=
  { p with
    current_orientation := p.initial_orientation
    rotation_count := 0
    translation_count := 0
    has_flipped := false
    orientation_exhausted := false
    translation_exhausted := false }

/-- `PieceModel::change_orientation`. -/
def change_orientation (p : PieceModel) : Option PieceModel :=
  if p.rotation_count = p.max_rotations then
    if p.is_flippable && !p.has_flipped then
      p.flipPiece
    else
      some { p with orientation_exhausted := true }
  else
    p.rotate

/-- `PieceModel::translate`. -/
def translate (p : PieceModel) : Option PieceModel := do
  let v ← p.current_orientation.get 0 p.translation_count
  if v = 1 then
    some { p with translation_exhausted := true }
  else
    some { p with translation_count := p.translation_count + 1 }

/-- `PieceModel::next_unique_orientation`. -/
def next_unique_orientation (p : PieceModel) : Option PieceModel :=
  if p.translation_exhausted then do
    let p ← p.change_orientation
    some { p with translation_exhausted := false, translation_count := 0 }
  else
    p.translate

/-- `PieceModel::set_used`. -/
def set_used (p : PieceModel) (is_used : Bool) : PieceModel :=
  { p with is_used := is_used }

/-- `PieceModel::get_piece_position` (`get_piece_board_position` in the
solver-era API): unwraps the board position, so it panics (here `none`) for an
unplaced piece. -/
def get_piece_position (p : PieceModel) : Option PiecePosition := do
  let pos ← p.board_position
  some ⟨p.name, pos, p.current_orientation⟩

/-- Modelled from the spec: the solver-era `is_exhausted` accessor is not
among the source files; spec §4.2 says "a piece `is_exhausted` exactly when
`orientation_exhausted` is true". -/
def is_exhausted (p : PieceModel) : Bool :=
  p.orientation_exhausted

/-- Modelled from the spec: the solver-era `set_board_position` setter is not
among the source files; spec §3 records an "optional board position once
placed". -/
def set_board_position (p : PieceModel) (pos : Nat × Nat) : PieceModel :=
  { p with board_position := some pos }

/-- `n`-fold monadic iteration of `change_orientation`. -/
def changeIter (p : PieceModel) : Nat → Option PieceModel
  | 0 => some p
  | n + 1 => do
    let p ← p.change_orientation
    p.changeIter n

end PieceModel

/-- `create_piece_models` from `piece.rs`: the standard catalogue of 8
pieces (name, initial orientation, max rotations, flippability). -/
def create_piece_models : List PieceModel :=
  [ PieceModel.new "2x3 No Hole" (Array2D.mk 2 3 [1,1,1, 1,1,1]) 2 false,
    PieceModel.new "2x3 Middle Hole" (Array2D.mk 2 3 [1,0,1, 1,1,1]) 3 false,
    PieceModel.new "2x3 End Hole" (Array2D.mk 2 3 [1,1,0, 1,1,1]) 3 true,
    PieceModel.new "2x4 Zig Zag" (Array2D.mk 2 4 [0,0,1,1, 1,1,1,0]) 3 true,
    PieceModel.new "2x4 Tee." (Array2D.mk 2 4 [0,0,1,0, 1,1,1,1]) 4 true,
    PieceModel.new "2x4 L" (Array2D.mk 2 4 [0,0,0,1, 1,1,1,1]) 4 true,
    PieceModel.new "3x3 Zig Zag" (Array2D.mk 3 3 [1,0,0, 1,1,1, 0,0,1]) 2 true,
    PieceModel.new "3x3 L" (Array2D.mk 3 3 [1,0,0, 1,0,0, 1,1,1]) 4 false ]


/-!
## `memento.rs`
-/

/-- The `Memento` struct of `memento.rs`: an owned backup of a board layout. -/
structure Memento where
  backup : Array2D
deriving DecidableEq, Repr

namespace Memento

/-- `Memento::new`. -/
def new (backup : Array2D) : Memento := ⟨backup⟩

/-- `Memento::get_state`: consumes the memento, returning the backup. -/
def get_state (m : Memento) : Array2D := m.backup

end Memento

/-!
## `board.rs`
-/

/-- `create_empty_calendar`: the empty 7×7 calendar board with the six
non-calendar cells already set to 1. -/
def create_empty_calendar : Array2D :=
  Array2D.mk 7 7
    [0,0,0,0,0,0,1,
     0,0,0,0,0,0,1,
     0,0,0,0,0,0,0,
     0,0,0,0,0,0,0,
     0,0,0,0,0,0,0,
     0,0,0,0,0,0,0,
     0,0,0,1,1,1,1]

/-- `get_calendar_position`: row/column for a calendar entry.  The `usize`
subtractions (`start_row + quotient - 1`, `remainder - 1`) are modelled with
`checkedSub` (a debug-build Rust panic on underflow is `none`). -/
def get_calendar_position (calendar_entry start_row end_col divisor : Nat) :
    Option (Nat × Nat) :=
  let quotient := calendar_entry / divisor
  let remainder := calendar_entry % divisor
  if remainder = 0 then do
    let r ← checkedSub (start_row + quotient) 1
    some (r, end_col)
  else do
    let c ← checkedSub remainder 1
    some (start_row + quotient, c)

/-- `initialise_calendar_layout`: marks the day and month cells with 1. -/
def initialise_calendar_layout (day month : Nat) (empty_layout : Array2D) :
    Option Array2D := do
  let (row, col) ← get_calendar_position day 2 6 7
  let l ← empty_layout.set row col 1
  let (row, col) ← get_calendar_position month 0 5 6
  l.set row col 1

/-- The `BoardModel` struct of `board.rs`. -/
structure BoardModel where
  day : Nat
  month : Nat
  board_layout : Array2D
deriving DecidableEq, Repr

/-- The `for (index, &item) in ...enumerate()` scan of `next_board_position`:
the index of the first 0, starting the count at `index`. -/
def findFirstZero : List Nat → Nat → Option Nat
  | [], _ => none
  | item :: rest, index => if item = 0 then some index else findFirstZero rest (index + 1)

/-- `next_board_position`: scans the data row-major for the first 0 and
returns its (row, col); panics (here `none`) when no empty cell exists. -/
def next_board_position (board_layout : Array2D) : Option (Nat × Nat) :=
  match findFirstZero board_layout.data 0 with
  | some index => some (index / board_layout.cols, index % board_layout.cols)
  | none => none

/-- `is_board_complete`: true iff the layout contains no 0. -/
def is_board_complete (board_layout : Array2D) : Bool :=
  if board_layout.data.contains 0 then false else true

/-- `place_piece_on_board`: stamps the piece's current orientation onto an
empty 7×7 board at `(row, col)`; the explicit `panic!` for an out-of-bounds
placement is `none`.  The bound comparisons use `usize` subtraction. -/
def place_piece_on_board (pos : Nat × Nat) (piece_model : PieceModel) :
    Option Array2D := do
  let (row, col) := pos
  let r1 ← checkedSub (row + piece_model.current_orientation.rows) 1
  let c1 ← checkedSub (col + piece_model.current_orientation.cols) 1
  if r1 > 6 ∨ c1 > 6 then none
  else
    (List.range piece_model.current_orientation.rows).foldlM (fun b row_piece =>
      (List.range piece_model.current_orientation.cols).foldlM (fun b col_piece => do
        let v ← piece_model.current_orientation.get row_piece col_piece
        b.set (row + row_piece) (col + col_piece) v) b)
      (Array2D.mk 7 7 (List.replicate (7 * 7) 0))

/-- `is_unreachable_holes`: returns `false` for a complete board; otherwise it
computes `next_board_position` (whose panic would propagate) and returns
`true` — i.e. any leftover 0 cell is flagged. -/
def is_unreachable_holes (board_layout : Array2D) : Option Bool :=
  if is_board_complete board_layout then some false
  else do
    let _ ← next_board_position board_layout
    some true

namespace BoardModel

/-- `BoardModel::new`. -/
def new (day month : Nat) : Option BoardModel := do
  let l ← initialise_calendar_layout day month create_empty_calendar
  some ⟨day, month, l⟩

/-- `BoardModel::is_piece_valid`: the translation check, the bounds check,
the overlap check (`contains(&2)`), and the hole check, in source order. -/
def is_piece_valid (b : BoardModel) (pos : Nat × Nat) (piece_model : PieceModel) :
    Option Bool :=
  let (row, col) := pos
  if piece_model.translation_count > col then some false
  else do
    let a1 ← checkedSub (row + piece_model.current_orientation.rows) 1
    let a2 ← checkedSub b.board_layout.rows 1
    if a1 > a2 ∨ col + piece_model.current_orientation.cols > b.board_layout.cols then
      some false
    else do
      let stamped ← place_piece_on_board (row, col) piece_model
      let new_board_layout ← b.board_layout.add stamped
      if new_board_layout.data.contains 2 then some false
      else do
        let holes ← is_unreachable_holes new_board_layout
        if holes then some false else some true

/-- `BoardModel::generate_memento`. -/
def generate_memento (b : BoardModel) : Memento :=
  Memento.new b.board_layout

/-- `BoardModel::restore_from_memento`. -/
def restore_from_memento (b : BoardModel) (memento : Memento) : BoardModel :=
  { b with board_layout := memento.get_state }

end BoardModel


/-!
## `solver.rs`

The solver source (`find_solution_set`) calls a few accessors of
`BoardModel`/`PieceModel` whose definitions are not among the source files
(`get_board_layout`, `add_piece_to_board`, the internally-stacked
`generate_memento`/`restore_from_memento` pair, `is_used`, `is_exhausted`,
`set_board_position`, `get_piece_board_position`); these are modelled from the
spec (§3, §4.2–§4.4) where marked.  The loop structure itself follows
`find_solution_set` statement by statement; the two non-`for` loops (`loop`
and the orientation `while`) take explicit fuel, `none` meaning the fuel ran
out before the loop finished.
-/

/-- The `SolverSingleThreaded` struct.  `board_history` models the memento
stack behind the solver-era `self.board.generate_memento()` /
`self.board.restore_from_memento()` calls (Modelled from the spec: §3
"stored on a history stack, popped and consumed on backtrack"). -/
structure SolverSingleThreaded where
  day : Nat
  month : Nat
  pieces : List PieceModel
  board : BoardModel
  solution_set : List (List PiecePosition)
  board_history : List Memento
deriving DecidableEq, Repr

/-- Modelled from the spec: `add_piece_to_board(piece)` "stamps the piece's
current orientation into board_layout at the piece's recorded position via
elementwise add" (§4.3). -/
def add_piece_to_board (b : BoardModel) (p : PieceModel) : Option BoardModel := do
  let pos ← p.board_position
  let stamped ← place_piece_on_board pos p
  let l ← b.board_layout.add stamped
  some { b with board_layout := l }

/-- The `while !piece.is_exhausted()` loop inside `find_solution_set`: try the
current orientation; on success record the board position on the piece (the
`break 'piece_loop` path returns `true`), otherwise advance the orientation. -/
def piece_while (b : BoardModel) (pos : Nat × Nat) :
    Nat → PieceModel → Option (PieceModel × Bool)
  | 0, _ => none
  | fuel + 1, p =>
    if p.is_exhausted then some (p, false)
    else do
      let v ← b.is_piece_valid pos p
      if v then some (p.set_board_position pos, true)
      else do
        let p ← p.next_unique_orientation
        piece_while b pos fuel p

/-- The `'piece_loop: for index in start_index..len` loop of
`find_solution_set`: skips used pieces, runs the orientation `while` for an
unused one, and either commits a placement (memento push, stamp, history
push, break out) or resets the exhausted piece and moves on.  `remaining`
counts the indices left to visit. -/
def piece_loop (whileFuel : Nat) (pos : Nat × Nat) :
    Nat → Nat → SolverSingleThreaded → List Nat →
    Option (SolverSingleThreaded × List Nat × Bool)
  | 0, _, st, hist => some (st, hist, false)
  | remaining + 1, index, st, hist => do
    let piece ← st.pieces.get? index
    if !piece.is_used then do
      let (piece, placed) ← piece_while st.board pos whileFuel piece
      if placed then do
        let st := { st with pieces := st.pieces.set index piece,
                            board_history := st.board.generate_memento :: st.board_history }
        let board ← add_piece_to_board st.board piece
        some ({ st with board := board }, index :: hist, true)
      else
        piece_loop whileFuel pos remaining (index + 1)
          { st with pieces := st.pieces.set index piece.reset } hist
    else
      piece_loop whileFuel pos remaining (index + 1) st hist

/-- The outer `loop` of `find_solution_set`: next empty position, the piece
loop, solution harvesting for a complete board, and the backtrack (or final
`break`) when nothing was placed. -/
def solve_loop (whileFuel : Nat) :
    Nat → Nat → List Nat → SolverSingleThreaded → Option SolverSingleThreaded
  | 0, _, _, _ => none
  | fuel + 1, start_index, hist, st => do
    let pos ← next_board_position st.board.board_layout
    let (st, hist, broke) ←
      piece_loop whileFuel pos (st.pieces.length - start_index) start_index st hist
    let st ←
      if is_board_complete st.board.board_layout then do
        let solution ← st.pieces.mapM PieceModel.get_piece_position
        some { st with solution_set := st.solution_set ++ [solution] }
      else some st
    if broke then
      solve_loop whileFuel fuel start_index hist st
    else
      match hist with
      | x :: rest => do
        let (board, bh) ←
          (match st.board_history with
           | m :: r => some (st.board.restore_from_memento m, r)
           | [] => none)
        let piece ← st.pieces.get? x
        let piece ← (piece.set_used false).next_unique_orientation
        solve_loop whileFuel fuel x rest
          { st with board := board, board_history := bh, pieces := st.pieces.set x piece }
      | [] => some st

/-- `SolverSingleThreaded::new`. -/
def SolverSingleThreaded.new (day month : Nat) : Option SolverSingleThreaded := do
  let b ← BoardModel.new day month
  some { day := day, month := month, pieces := create_piece_models, board := b,
         solution_set := [], board_history := [] }

/-- `SolverSingleThreaded::find_solution_set`, with the two fuel parameters of
the embedded loops made explicit. -/
def find_solution_set (whileFuel outerFuel : Nat) (st : SolverSingleThreaded)
    (start_index : Nat) : Option SolverSingleThreaded :=
  solve_loop whileFuel outerFuel start_index [] st

-- Sanity examples mirroring the unit tests of the Rust sources.
-- Sanity examples mirroring the unit tests of `array_2d.rs`.
example : (Array2D.mk 3 3 [1,2,3,4,5,6,7,8,9]).flip Axes.Y
    = some (Array2D.mk 3 3 [3,2,1,6,5,4,9,8,7]) := by decide
example : (Array2D.mk 3 3 [1,2,3,4,5,6,7,8,9]).flip Axes.X
    = some (Array2D.mk 3 3 [7,8,9,4,5,6,1,2,3]) := by decide
example : (Array2D.mk 3 3 [1,2,3,4,5,6,7,8,9]).transpose
    = some (Array2D.mk 3 3 [1,4,7,2,5,8,3,6,9]) := by decide
example : (Array2D.mk 2 4 [0,1,2,3,4,5,6,7]).transpose
    = some (Array2D.mk 4 2 [0,4,1,5,2,6,3,7]) := by decide
example : (Array2D.mk 2 2 [0,1,2,3]).rotate90 1
    = some (Array2D.mk 2 2 [1,3,0,2]) := by decide
example : (Array2D.mk 2 2 [0,1,2,3]).rotate90 2
    = some (Array2D.mk 2 2 [3,2,1,0]) := by decide
example : (Array2D.mk 2 2 [0,1,2,3]).rotate90 (-3)
    = some (Array2D.mk 2 2 [1,3,0,2]) := by decide
example : (Array2D.mk 2 2 [0,1,2,3]).rotate90 (-6)
    = some (Array2D.mk 2 2 [3,2,1,0]) := by decide
example : (Array2D.mk 2 2 [0,1,2,3]).add (Array2D.mk 2 2 [0,1,2,3])
    = some (Array2D.mk 2 2 [0,2,4,6]) := by decide

-- Sanity examples mirroring the unit tests of `piece.rs`.
example :
    ((PieceModel.new "2x3 End Hole" (Array2D.mk 2 3 [1,1,0, 1,1,1]) 3 true).changeIter 4).map
      (fun p => (p.rotation_count, p.has_flipped)) = some (0, true) := by decide
example :
    ((PieceModel.new "2x3 End Hole" (Array2D.mk 2 3 [1,1,0, 1,1,1]) 3 true).changeIter 8).map
      (fun p => (p.rotation_count, p.has_flipped, p.orientation_exhausted))
    = some (3, true, true) := by decide

-- Sanity examples mirroring the unit tests of `board.rs`.
example : get_calendar_position 5 0 5 6 = some (0, 4) := by decide
example : get_calendar_position 21 2 6 7 = some (4, 6) := by decide
example :
    next_board_position (Array2D.mk 7 7
      ((List.replicate 21 1) ++ (List.replicate 21 0) ++ [0,0,0,1,1,1,1]))
    = some (3, 0) := by decide
example :
    place_piece_on_board (2, 3)
      (PieceModel.new "2x4 Zig Zag" (Array2D.mk 2 4 [0,0,1,1, 1,1,1,0]) 3 true)
    = some (Array2D.mk 7 7
      [0,0,0,0,0,0,0,
       0,0,0,0,0,0,0,
       0,0,0,0,0,1,1,
       0,0,0,1,1,1,0,
       0,0,0,0,0,0,0,
       0,0,0,0,0,0,0,
       0,0,0,0,0,0,0]) := by decide
example :
    place_piece_on_board (2, 4)
      (PieceModel.new "2x4 Zig Zag" (Array2D.mk 2 4 [0,0,1,1, 1,1,1,0]) 3 true)
    = none := by decide

/-!
## Helper lemmas
-/

theorem bindO_eq_some {α β : Type} {x : Option α} {f : α → Option β} {b : β} :
    (x >>= f) = some b ↔ ∃ a, x = some a ∧ f a = some b :=
  Option.bind_eq_some

theorem bindO_some {α β : Type} (a : α) (f : α → Option β) :
    ((some a : Option α) >>= f) = f a := rfl

theorem checkedSub_some {a b r : Nat} (h : checkedSub a b = some r) :
    b ≤ a ∧ r = a - b := by
  rw [checkedSub] at h
  split at h
  · cases h; exact ⟨by assumption, rfl⟩
  · cases h

theorem checkedSub_of_le {a b : Nat} (h : b ≤ a) : checkedSub a b = some (a - b) := by
  rw [checkedSub, if_pos h]

theorem Array2D.set_shape (a : Array2D) (r c v : Nat) (a' : Array2D)
    (h : a.set r c v = some a') : a'.rows = a.rows ∧ a'.cols = a.cols := by
  rw [Array2D.set] at h
  split at h
  · cases h; exact ⟨rfl, rfl⟩
  · cases h

theorem foldlM_shape_preserved {β : Type} (f : Array2D → β → Option Array2D)
    (hf : ∀ a x a', f a x = some a' → a'.rows = a.rows ∧ a'.cols = a.cols)
    (l : List β) : ∀ (a a' : Array2D), l.foldlM f a = some a' →
      a'.rows = a.rows ∧ a'.cols = a.cols := by
  induction l with
  | nil =>
    intro a a' h
    rw [List.foldlM_nil] at h
    cases h; exact ⟨rfl, rfl⟩
  | cons x rest ih =>
    intro a a' h
    rw [List.foldlM_cons] at h
    rcases bindO_eq_some.mp h with ⟨b, hb, hrest⟩
    have h1 := hf a x b hb
    have h2 := ih b a' hrest
    omega

theorem place_piece_shape (pos : Nat × Nat) (p : PieceModel) (s : Array2D)
    (h : place_piece_on_board pos p = some s) : s.rows = 7 ∧ s.cols = 7 := by
  obtain ⟨row, col⟩ := pos
  rw [place_piece_on_board] at h
  rcases bindO_eq_some.mp h with ⟨r1, hr1, h2⟩
  rcases bindO_eq_some.mp h2 with ⟨c1, hc1, hrest⟩
  split at hrest
  · cases hrest
  · have := foldlM_shape_preserved _ ?_ _ _ _ hrest
    · simpa using this
    · intro a x a' ha
      refine foldlM_shape_preserved _ ?_ _ _ _ ha
      intro a2 x2 a2' ha2
      rcases bindO_eq_some.mp ha2 with ⟨v, _, hset⟩
      exact Array2D.set_shape _ _ _ _ _ hset

theorem findFirstZero_of_contains (l : List Nat) (h : l.contains 0 = true) :
    ∀ n, ∃ i, findFirstZero l n = some i := by
  induction l with
  | nil => simp at h
  | cons x rest ih =>
    intro n
    by_cases hx : x = 0
    · exact ⟨n, by rw [findFirstZero, if_pos hx]⟩
    · have hr : rest.contains 0 = true := by
        simp only [List.contains_cons, Bool.or_eq_true, beq_iff_eq] at h
        rcases h with h0 | h0
        · exact absurd h0.symm hx
        · exact h0
      obtain ⟨i, hi⟩ := ih hr (n + 1)
      exact ⟨i, by rw [findFirstZero, if_neg hx, hi]⟩

/-!
## Claim theorems
-/

/-- C1: the claim states that `find_solution_set` on a solver built from
`new(31, 1)` records at least one solution.  Evaluating the embedded solver
shows the opposite: the run terminates (the fuel is not exhausted) with an
*empty* solution set, because `is_unreachable_holes` flags every layout that
still has an empty cell, so no piece placement is ever accepted. -/
theorem solver_31_1_solution_set_empty :
    (((SolverSingleThreaded.new 31 1).bind (fun s => find_solution_set 200 3 s 0)).map
      (fun s => s.solution_set)) = some [] := by rfl

/-- C2: whenever the translation and bounds checks pass and the layout
obtained by stamping the piece onto the board still contains a 0 cell,
`is_piece_valid` returns `false`. -/
theorem is_piece_valid_false_on_zero_cell (b : BoardModel) (p : PieceModel)
    (row col : Nat) (layout : Array2D)
    (hT : ¬ p.translation_count > col)
    (hB1 : row + p.current_orientation.rows ≤ b.board_layout.rows)
    (hB2 : ¬ col + p.current_orientation.cols > b.board_layout.cols)
    (hstamp : (place_piece_on_board (row, col) p).bind
        (fun stamped => b.board_layout.add stamped) = some layout)
    (hzero : layout.data.contains 0 = true) :
    b.is_piece_valid (row, col) p = some false := by
  rcases Option.bind_eq_some.mp hstamp with ⟨stamped, hplace, hadd⟩
  have hshape := place_piece_shape _ _ _ hplace
  rw [Array2D.add] at hadd
  have hboard : b.board_layout.rows = stamped.rows ∧ b.board_layout.cols = stamped.cols := by
    split at hadd
    · assumption
    · cases hadd
  have hrows7 : b.board_layout.rows = 7 := by omega
  have hplace2 := hplace
  rw [place_piece_on_board] at hplace2
  rcases bindO_eq_some.mp hplace2 with ⟨r1, hr1, -⟩
  have hr1' := checkedSub_some hr1
  rw [BoardModel.is_piece_valid, if_neg hT, hr1]
  rw [bindO_some]
  rw [hrows7]
  have h76 : checkedSub 7 1 = some 6 := rfl
  rw [h76]
  rw [bindO_some]
  rw [if_neg (not_or.mpr ⟨by omega, hB2⟩)]
  rw [hplace, bindO_some]
  rw [show b.board_layout.add stamped = some layout from by
    rw [Array2D.add]; exact hadd]
  rw [bindO_some]
  cases hcon : layout.data.contains 2 with
  | true => simp only [hcon, if_true]
  | false =>
    simp only [hcon, Bool.false_eq_true, if_false]
    have hcomplete : is_board_complete layout = false := by
      rw [is_board_complete, if_pos hzero]
    obtain ⟨i, hi⟩ := findFirstZero_of_contains layout.data hzero 0
    rw [is_unreachable_holes, hcomplete]
    simp only [Bool.false_eq_true, if_false, next_board_position, hi, bindO_some]
    simp

/-- Witness for C2: the fresh 2×3 piece at position (0, 1) of the freshly
initialised day-31/month-1 board passes the translation and bounds checks,
the stamped layout still contains 0 cells, and `is_piece_valid` is `false`. -/
theorem is_piece_valid_false_on_zero_cell_witness :
    (BoardModel.mk 31 1 (Array2D.mk 7 7
        [1,0,0,0,0,0,1, 0,0,0,0,0,0,1, 0,0,0,0,0,0,0, 0,0,0,0,0,0,0,
         0,0,0,0,0,0,0, 0,0,0,0,0,0,0, 0,0,1,1,1,1,1])).is_piece_valid (0, 1)
      (PieceModel.new "2x3 No Hole" (Array2D.mk 2 3 [1,1,1,1,1,1]) 2 false)
    = some false :=
  is_piece_valid_false_on_zero_cell _ _ 0 1
    (Array2D.mk 7 7
      [1,1,1,1,0,0,1, 0,1,1,1,0,0,1, 0,0,0,0,0,0,0, 0,0,0,0,0,0,0,
       0,0,0,0,0,0,0, 0,0,0,0,0,0,0, 0,0,1,1,1,1,1])
    (by decide) (by decide) (by decide) (by decide) (by decide)

/-- C3 counterexample: on a 2×3 grid, `get(0, 4)` has `col ≥ cols` yet does
not fail — it returns the element stored at flattened index 4, i.e. the cell
(1, 1).  This refutes "fails with an IndexOutOfBounds error if … col ≥ cols". -/
theorem get_col_overflow_aliases :
    ¬ (4 < (Array2D.mk 2 3 [1,2,3,4,5,6]).cols) ∧
    (Array2D.mk 2 3 [1,2,3,4,5,6]).get 0 4 = some 5 := by decide

/-- C3 amended: `get(row, col)` fails exactly when the flattened index
`cols*row + col` falls outside the data (for a well-formed grid, iff
`cols*row + col ≥ rows*cols`); in particular an in-bounds pair
(`row < rows`, `col < cols`) always returns the stored element. -/
theorem get_flattened_bounds (a : Array2D) (row col : Nat) (h : a.wellFormed) :
    (a.get row col = none ↔ a.rows * a.cols ≤ a.cols * row + col) ∧
    (row < a.rows → col < a.cols → ∃ v, a.get row col = some v) := by
  constructor
  · rw [Array2D.get, List.get?_eq_none, h]
  · intro hr hc
    have hlt : a.cols * row + col < a.data.length := by
      rw [h]
      calc a.cols * row + col < a.cols * row + a.cols := by omega
        _ = a.cols * (row + 1) := by ring
        _ ≤ a.cols * a.rows := Nat.mul_le_mul_left _ hr
        _ = a.rows * a.cols := Nat.mul_comm _ _
    exact ⟨_, List.get?_eq_get hlt⟩

/-- Witness for C3's amended theorem at a concrete in-bounds cell. -/
theorem get_flattened_bounds_witness :
    (((Array2D.mk 2 3 [1,2,3,4,5,6]).get 1 2 = none ↔
        (Array2D.mk 2 3 [1,2,3,4,5,6]).rows * (Array2D.mk 2 3 [1,2,3,4,5,6]).cols ≤
          (Array2D.mk 2 3 [1,2,3,4,5,6]).cols * 1 + 2) ∧
      (1 < (Array2D.mk 2 3 [1,2,3,4,5,6]).rows →
        2 < (Array2D.mk 2 3 [1,2,3,4,5,6]).cols →
        ∃ v, (Array2D.mk 2 3 [1,2,3,4,5,6]).get 1 2 = some v)) :=
  get_flattened_bounds (Array2D.mk 2 3 [1,2,3,4,5,6]) 1 2 (by decide)

/-- C4: on the non-square 4×2 grid, `flip(Axes::X)` swaps only rows 0 and 3
(the loop bound is `cols/2 = 1` instead of `rows/2 = 2`), so the result is
not the row reversal the claim describes. -/
theorem flip_X_4x2_not_row_reversal :
    (Array2D.mk 4 2 [1,2,3,4,5,6,7,8]).flip Axes.X
      = some (Array2D.mk 4 2 [7,8,3,4,5,6,1,2])
    ∧ Array2D.mk 4 2 [7,8,3,4,5,6,1,2] ≠ Array2D.mk 4 2 [7,8,5,6,3,4,1,2] := by
  decide

/-- C5 counterexample: `reset()` does not assign `is_used`, so a used piece
stays marked used after the reset, refuting "… and is_used = false". -/
theorem reset_leaves_is_used_set :
    (((PieceModel.new "2x3 No Hole" (Array2D.mk 2 3 [1,1,1,1,1,1]) 2 false).set_used
        true).reset).is_used = true := by decide

/-- C5 amended: `reset()` restores the initial orientation and clears every
counter and flag except `is_used`, which keeps its previous value. -/
theorem reset_restores_all_but_is_used (p : PieceModel) :
    p.reset.current_orientation = p.initial_orientation ∧
    p.reset.rotation_count = 0 ∧ p.reset.translation_count = 0 ∧
    p.reset.has_flipped = false ∧ p.reset.orientation_exhausted = false ∧
    p.reset.translation_exhausted = false ∧ p.reset.is_used = p.is_used :=
  ⟨rfl, rfl, rfl, rfl, rfl, rfl, rfl⟩

/-- C6: on the 1×4 grid, `rotate90(2)` panics — the `Axes::X` flip iterates
`row_index` up to `cols/2 = 2` and the `usize` subtraction
`(rows - 1) - row_index` underflows at `row_index = 1` — so "four
applications return the original grid" fails for such grids. -/
theorem rotate90_2_on_1x4_panics :
    (Array2D.mk 1 4 [0,1,2,3]).rotate90 2 = none := by decide

/-- C8: elementwise add fails exactly on shape mismatch (never truncating),
and for identical shapes it produces the grid of pairwise sums. -/
theorem add_shape_checked (a b : Array2D) :
    (¬(a.rows = b.rows ∧ a.cols = b.cols) → a.add b = none) ∧
    ((a.rows = b.rows ∧ a.cols = b.cols) →
      ∃ c, a.add b = some c ∧ c.rows = a.rows ∧ c.cols = a.cols ∧
        ∀ r co x y, r < a.rows → co < a.cols →
          a.get r co = some x → b.get r co = some y → c.get r co = some (x + y)) := by
  constructor
  · intro hne
    rw [Array2D.add, if_neg hne]
  · intro hsh
    refine ⟨⟨a.rows, a.cols, List.zipWith (· + ·) a.data b.data⟩, ?_, rfl, rfl, ?_⟩
    · rw [Array2D.add, if_pos hsh]
    · intro r co x y _ _ hx hy
      rw [Array2D.get] at hx hy
      rw [← hsh.2] at hy
      show (List.zipWith (· + ·) a.data b.data).get? (a.cols * r + co) = some (x + y)
      rw [List.get?_zipWith_eq_some]
      exact ⟨x, y, hx, hy, rfl⟩

/-- Witness for C8 at concrete shapes: a 2×2/2×3 pair fails, and a matching
2×2 pair sums cell (0, 1). -/
theorem add_shape_checked_witness :
    ((Array2D.mk 2 2 [0,1,2,3]).add (Array2D.mk 2 3 [0,1,2,3,4,5]) = none) ∧
    ∃ c, (Array2D.mk 2 2 [0,1,2,3]).add (Array2D.mk 2 2 [10,20,30,40]) = some c ∧
      c.get 0 1 = some 21 := by
  constructor
  · exact (add_shape_checked (Array2D.mk 2 2 [0,1,2,3])
      (Array2D.mk 2 3 [0,1,2,3,4,5])).1 (by decide)
  · obtain ⟨c, hc, -, -, hcell⟩ := (add_shape_checked (Array2D.mk 2 2 [0,1,2,3])
      (Array2D.mk 2 2 [10,20,30,40])).2 (by decide)
    exact ⟨c, hc, hcell 0 1 1 20 (by decide) (by decide) (by decide) (by decide)⟩

/-- C10: restoring a board from a memento generated earlier recovers exactly
the layout held at generation time, whatever the board looks like in
between. -/
theorem restore_from_memento_roundtrip (b b' : BoardModel) :
    (b'.restore_from_memento b.generate_memento).board_layout = b.board_layout := rfl

theorem listSwap_spec (l : List Nat) (i j : Nat) (l' : List Nat) (hij : i ≠ j)
    (h : listSwap l i j = some l') :
    l'.length = l.length ∧ l'.get? i = l.get? j ∧ l'.get? j = l.get? i ∧
      ∀ m, m ≠ i → m ≠ j → l'.get? m = l.get? m := by
  rw [listSwap] at h
  split at h
  · rename_i hb
    cases h
    refine ⟨by simp, ?_, ?_, ?_⟩
    · simp only [List.get?_eq_getElem?]
      rw [List.getElem?_set_ne hij.symm, List.getElem?_set_self',
        List.getElem?_eq_getElem hb.1, List.getElem?_eq_getElem hb.2]
      rfl
    · simp only [List.get?_eq_getElem?]
      rw [List.getElem?_set_self', List.getElem?_set_ne hij,
        List.getElem?_eq_getElem hb.2, List.getElem?_eq_getElem hb.1]
      rfl
    · intro m hmi hmj
      simp only [List.get?_eq_getElem?]
      rw [List.getElem?_set_ne (fun hh => hmj hh.symm),
        List.getElem?_set_ne (fun hh => hmi hh.symm)]
  · cases h

theorem listSwap_of_lt (l : List Nat) (i j : Nat) (hi : i < l.length)
    (hj : j < l.length) : ∃ l', listSwap l i j = some l' := by
  rw [listSwap]
  exact ⟨_, dif_pos ⟨hi, hj⟩⟩

theorem getD_set_self (l : List Bool) (i : Nat) (b : Bool) (h : i < l.length) :
    (l.set i b).getD i false = b := by
  rw [List.getD, List.get?_eq_getElem?, List.getElem?_set_self',
    List.getElem?_eq_getElem h]
  rfl

theorem getD_set_ne (l : List Bool) (i j : Nat) (b : Bool) (h : i ≠ j) :
    (l.set i b).getD j false = l.getD j false := by
  rw [List.getD, List.getD, List.get?_eq_getElem?, List.get?_eq_getElem?,
    List.getElem?_set_ne h]

theorem tni_lt (cols mn i : Nat) (h : i < mn) :
    Array2D.transposeNewIndex cols mn i < mn := by
  rw [Array2D.transposeNewIndex]
  split
  · omega
  · rename_i hne
    have h2 : 2 ≤ mn := by omega
    have := Nat.mod_lt (cols * i) (show 0 < mn - 1 by omega)
    omega

theorem tni_iterate_lt (cols mn s : Nat) (hs : s < mn) (t : Nat) :
    (Array2D.transposeNewIndex cols mn)^[t] s < mn := by
  induction t with
  | zero => simpa
  | succ n ih =>
    rw [Function.iterate_succ_apply']
    exact tni_lt _ _ _ ih

theorem transposeCycle_spec (rows cols s k : Nat)
    (hs : s < rows * cols) (hk0 : 0 < k)
    (hks : (Array2D.transposeNewIndex cols (rows * cols))^[k] s = s)
    (hmin : ∀ j, 0 < j → j < k →
      (Array2D.transposeNewIndex cols (rows * cols))^[j] s ≠ s)
    (hdist : ∀ u u', u < k → u' < k →
      (Array2D.transposeNewIndex cols (rows * cols))^[u] s
        = (Array2D.transposeNewIndex cols (rows * cols))^[u'] s → u = u') :
    ∀ (fuel : Nat), ∀ (t : Nat) (v : List Bool) (d : List Nat),
      t < k → k - t ≤ fuel → v.length = rows * cols → d.length = rows * cols →
      ∃ V D, Array2D.transposeCycle cols (rows * cols) s fuel
          ((Array2D.transposeNewIndex cols (rows * cols))^[t] s) v d = some (V, D) ∧
        V.length = rows * cols ∧ D.length = rows * cols ∧
        (∀ u, t ≤ u → u + 1 < k →
          D.get? ((Array2D.transposeNewIndex cols (rows * cols))^[u] s)
            = d.get? ((Array2D.transposeNewIndex cols (rows * cols))^[u+1] s)) ∧
        (D.get? ((Array2D.transposeNewIndex cols (rows * cols))^[k-1] s)
          = d.get? ((Array2D.transposeNewIndex cols (rows * cols))^[t] s)) ∧
        (∀ i, (∀ u, t ≤ u → u < k →
            i ≠ (Array2D.transposeNewIndex cols (rows * cols))^[u] s) →
          D.get? i = d.get? i) ∧
        (∀ u, t ≤ u → u < k →
          V.getD ((Array2D.transposeNewIndex cols (rows * cols))^[u] s) false = true) ∧
        (∀ i, (∀ u, t ≤ u → u < k →
            i ≠ (Array2D.transposeNewIndex cols (rows * cols))^[u] s) →
          V.getD i false = v.getD i false) := by
  intro fuel
  induction fuel with
  | zero => intro t v d ht hf hv hd; omega
  | succ f ih =>
    intro t v d ht hf hv hd
    have hnew : Array2D.transposeNewIndex cols (rows * cols)
        ((Array2D.transposeNewIndex cols (rows * cols))^[t] s)
        = (Array2D.transposeNewIndex cols (rows * cols))^[t+1] s :=
      (Function.iterate_succ_apply' _ _ _).symm
    by_cases hbr : t + 1 = k
    · -- the walk returns to the cycle start: break without swapping
      have hcond : Array2D.transposeNewIndex cols (rows * cols)
          ((Array2D.transposeNewIndex cols (rows * cols))^[t] s) = s := by
        rw [hnew, hbr, hks]
      have hstep : Array2D.transposeCycle cols (rows * cols) s (f+1)
          ((Array2D.transposeNewIndex cols (rows * cols))^[t] s) v d
          = some (v.set ((Array2D.transposeNewIndex cols (rows * cols))^[t] s) true, d) := by
        rw [Array2D.transposeCycle]
        simp only [hcond, eq_self_iff_true, if_true]
      have htk : t = k - 1 := by omega
      refine ⟨_, _, hstep, by simp [hv], hd, ?_, ?_, ?_, ?_, ?_⟩
      · intro u hu hu1; omega
      · rw [← htk]
      · intro i hi; rfl
      · intro u hu huk
        have hut : u = t := by omega
        subst hut
        exact getD_set_self _ _ _ (by rw [hv]; exact tni_iterate_lt _ _ _ hs _)
      · intro i hi
        exact getD_set_ne _ _ _ _ (fun hh => hi t le_rfl (by omega) hh.symm)
    · -- the walk continues: swap and recurse
      have hneq : (Array2D.transposeNewIndex cols (rows * cols))^[t+1] s ≠ s :=
        hmin (t+1) (by omega) (by omega)
      have hi1 : (Array2D.transposeNewIndex cols (rows * cols))^[t] s < rows * cols :=
        tni_iterate_lt _ _ _ hs _
      have hi2 : (Array2D.transposeNewIndex cols (rows * cols))^[t+1] s < rows * cols :=
        tni_iterate_lt _ _ _ hs _
      obtain ⟨d', hswap⟩ := listSwap_of_lt d
        ((Array2D.transposeNewIndex cols (rows * cols))^[t] s)
        ((Array2D.transposeNewIndex cols (rows * cols))^[t+1] s) (by omega) (by omega)
      have hne12 : (Array2D.transposeNewIndex cols (rows * cols))^[t] s
          ≠ (Array2D.transposeNewIndex cols (rows * cols))^[t+1] s := by
        intro hh
        have := hdist t (t+1) (by omega) (by omega) hh
        omega
      obtain ⟨hlen', hg1, hg2, hgo⟩ := listSwap_spec d _ _ d' hne12 hswap
      have hstep : Array2D.transposeCycle cols (rows * cols) s (f+1)
          ((Array2D.transposeNewIndex cols (rows * cols))^[t] s) v d
          = Array2D.transposeCycle cols (rows * cols) s f
              ((Array2D.transposeNewIndex cols (rows * cols))^[t+1] s)
              (v.set ((Array2D.transposeNewIndex cols (rows * cols))^[t] s) true) d' := by
        rw [Array2D.transposeCycle]
        simp only [hnew, if_neg (fun hh => hneq hh), hswap, bindO_some]
      obtain ⟨V, D, hrun, hVl, hDl, c1, c2, c3, c4, c5⟩ :=
        ih (t+1) (v.set ((Array2D.transposeNewIndex cols (rows * cols))^[t] s) true) d'
          (by omega) (by omega) (by simp [hv]) (hlen'.trans hd)
      refine ⟨V, D, hstep.trans hrun, hVl, hDl, ?_, ?_, ?_, ?_, ?_⟩
      · -- each visited cell now holds the next cell's value
        intro u hu hu1
        rcases Nat.eq_or_lt_of_le hu with hut | hut
        · -- u = t : the swap wrote d[σ^[t+1] s] there, and the recursion left it alone
          rw [← hut]
          have havoid : ∀ u', t + 1 ≤ u' → u' < k →
              (Array2D.transposeNewIndex cols (rows * cols))^[t] s
                ≠ (Array2D.transposeNewIndex cols (rows * cols))^[u'] s := by
            intro u' hu' hu'k hh
            have := hdist t u' (by omega) (by omega) hh
            omega
          rw [c3 _ havoid, hg1]
        · -- u > t : the recursion's description, with the swap not touching σ^[u+1] s
          have hc1 := c1 u (by omega) hu1
          rw [hc1]
          apply hgo
          · intro hh
            have := hdist (u+1) t (by omega) (by omega) hh
            omega
          · intro hh
            have := hdist (u+1) (t+1) (by omega) (by omega) hh
            omega
      · -- the last cell of the cycle holds the start cell's value
        rw [c2, hg2]
      · -- cells outside the walked cycle segment are untouched
        intro i hi
        have h3 := c3 i (fun u hu huk => hi u (by omega) huk)
        rw [h3]
        exact hgo i (fun hh => hi t le_rfl (by omega) hh)
          (fun hh => hi (t+1) (by omega) (by omega) hh)
      · -- every cell of the segment is marked visited
        intro u hu huk
        rcases Nat.eq_or_lt_of_le hu with hut | hut
        · have h5 := c5 ((Array2D.transposeNewIndex cols (rows * cols))^[t] s)
            (fun u' hu' hu'k hh => by
              have := hdist t u' (by omega) (by omega) hh
              omega)
          rw [← hut, h5]
          exact getD_set_self _ _ _ (by rw [hv]; exact hi1)
        · exact c4 u (by omega) huk
      · -- cells outside the segment keep their visited flag
        intro i hi
        have h5 := c5 i (fun u hu huk => hi u (by omega) huk)
        rw [h5]
        exact getD_set_ne _ _ _ _ (fun hh => hi t le_rfl (by omega) hh.symm)

theorem getD_replicate_false (n i : Nat) :
    (List.replicate n false).getD i false = false := by
  rw [List.getD]
  rcases Nat.lt_or_ge i n with h | h
  · rw [List.get?_eq_getElem?, List.getElem?_eq_getElem (by simpa using h)]
    simp
  · rw [List.get?_eq_none.mpr (by simpa using h)]
    rfl

theorem tni_inverse (rows cols i : Nat) (h : i < rows * cols) :
    Array2D.transposeNewIndex rows (rows * cols)
      (Array2D.transposeNewIndex cols (rows * cols) i) = i := by
  set mn := rows * cols with hmn
  by_cases hi : i = mn - 1
  · have hinner : Array2D.transposeNewIndex cols mn i = mn - 1 := by
      rw [Array2D.transposeNewIndex, if_pos hi]
    rw [hinner, Array2D.transposeNewIndex, if_pos rfl, hi]
  · have h2 : 2 ≤ mn := by omega
    have hn : 0 < mn - 1 := by omega
    have hinner : Array2D.transposeNewIndex cols mn i = (cols * i) % (mn - 1) := by
      rw [Array2D.transposeNewIndex, if_neg hi]
    have hlt : (cols * i) % (mn - 1) < mn - 1 := Nat.mod_lt _ hn
    rw [hinner, Array2D.transposeNewIndex, if_neg (by omega)]
    have step1 : rows * (cols * i % (mn - 1)) % (mn - 1)
        = rows * (cols * i) % (mn - 1) := by
      conv_lhs => rw [Nat.mul_mod, Nat.mod_mod_of_dvd _ (dvd_refl (mn - 1)), ← Nat.mul_mod]
    have step2 : rows * (cols * i) = mn * i := by
      rw [← Nat.mul_assoc, hmn]
    have hmn1 : mn = (mn - 1) + 1 := by omega
    have step3 : mn * i = i + i * (mn - 1) := by
      conv_lhs => rw [hmn1]
      ring
    rw [step1, step2, step3, Nat.add_mul_mod_self_right]
    exact Nat.mod_eq_of_lt (by omega)

theorem tni_inj (rows cols : Nat) {i j : Nat} (hi : i < rows * cols)
    (hj : j < rows * cols)
    (h : Array2D.transposeNewIndex cols (rows * cols) i
       = Array2D.transposeNewIndex cols (rows * cols) j) : i = j := by
  have h1 := tni_inverse rows cols i hi
  have h2 := tni_inverse rows cols j hj
  rw [← h1, ← h2, h]

theorem tni_iterate_inj (rows cols : Nat) (t : Nat) : ∀ {x y : Nat},
    x < rows * cols → y < rows * cols →
    (Array2D.transposeNewIndex cols (rows * cols))^[t] x
      = (Array2D.transposeNewIndex cols (rows * cols))^[t] y → x = y := by
  induction t with
  | zero => intro x y _ _ h; simpa using h
  | succ n ih =>
    intro x y hx hy h
    rw [Function.iterate_succ_apply, Function.iterate_succ_apply] at h
    exact tni_inj rows cols hx hy (ih (tni_lt _ _ _ hx) (tni_lt _ _ _ hy) h)

theorem tni_exists_cycle (rows cols s : Nat) (hs : s < rows * cols) :
    ∃ k, 0 < k ∧ k ≤ rows * cols ∧
      (Array2D.transposeNewIndex cols (rows * cols))^[k] s = s := by
  set mn := rows * cols with hmn
  obtain ⟨a, b, hne, heq⟩ := Fintype.exists_ne_map_eq_of_card_lt
    (fun t : Fin (mn + 1) => (⟨(Array2D.transposeNewIndex cols mn)^[t.val] s,
      tni_iterate_lt cols mn s hs t.val⟩ : Fin mn)) (by simp)
  have hval : (Array2D.transposeNewIndex cols mn)^[a.val] s
      = (Array2D.transposeNewIndex cols mn)^[b.val] s := by
    simpa using congrArg Fin.val heq
  rcases Nat.lt_or_ge a.val b.val with hab | hab
  · refine ⟨b.val - a.val, by omega, by have := b.isLt; omega, ?_⟩
    have : (Array2D.transposeNewIndex cols mn)^[a.val]
        ((Array2D.transposeNewIndex cols mn)^[b.val - a.val] s)
        = (Array2D.transposeNewIndex cols mn)^[a.val] s := by
      rw [← Function.iterate_add_apply]
      rw [show a.val + (b.val - a.val) = b.val by omega]
      exact hval.symm
    exact tni_iterate_inj rows cols a.val
      (tni_iterate_lt cols mn s hs _) hs this
  · have hba : b.val < a.val := by
      rcases Nat.lt_or_ge b.val a.val with h | h
      · exact h
      · exact absurd (Fin.ext (by omega)) hne
    refine ⟨a.val - b.val, by omega, by have := a.isLt; omega, ?_⟩
    have : (Array2D.transposeNewIndex cols mn)^[b.val]
        ((Array2D.transposeNewIndex cols mn)^[a.val - b.val] s)
        = (Array2D.transposeNewIndex cols mn)^[b.val] s := by
      rw [← Function.iterate_add_apply]
      rw [show b.val + (a.val - b.val) = a.val by omega]
      exact hval
    exact tni_iterate_inj rows cols b.val
      (tni_iterate_lt cols mn s hs _) hs this

theorem tni_iterate_mul_cycle (cols mn s k : Nat)
    (hks : (Array2D.transposeNewIndex cols mn)^[k] s = s) :
    ∀ q, (Array2D.transposeNewIndex cols mn)^[k * q] s = s := by
  intro q
  induction q with
  | zero => simp
  | succ n ih =>
    rw [Nat.mul_succ, Function.iterate_add_apply, hks, ih]

theorem tni_period (cols mn s k : Nat)
    (hks : (Array2D.transposeNewIndex cols mn)^[k] s = s) (u : Nat) :
    (Array2D.transposeNewIndex cols mn)^[u] s
      = (Array2D.transposeNewIndex cols mn)^[u % k] s := by
  conv_lhs => rw [show u = u % k + k * (u / k) from (Nat.mod_add_div u k).symm]
  rw [Function.iterate_add_apply, tni_iterate_mul_cycle cols mn s k hks]

theorem tni_orbit_back (cols mn s k : Nat) (hk0 : 0 < k)
    (hks : (Array2D.transposeNewIndex cols mn)^[k] s = s) (u : Nat) :
    ∃ m, (Array2D.transposeNewIndex cols mn)^[m]
      ((Array2D.transposeNewIndex cols mn)^[u] s) = s := by
  refine ⟨k * (u + 1) - u, ?_⟩
  rw [← Function.iterate_add_apply]
  rw [show k * (u + 1) - u + u = k * (u + 1) from by
    have : u + 1 ≤ k * (u + 1) := Nat.le_mul_of_pos_left _ hk0
    omega]
  exact tni_iterate_mul_cycle cols mn s k hks (u + 1)

theorem tni_orbit_distinct (rows cols s k : Nat) (hs : s < rows * cols)
    (hks : (Array2D.transposeNewIndex cols (rows * cols))^[k] s = s)
    (hmin : ∀ j, 0 < j → j < k → (Array2D.transposeNewIndex cols (rows * cols))^[j] s ≠ s) :
    ∀ u v, u < k → v < k →
      (Array2D.transposeNewIndex cols (rows * cols))^[u] s
        = (Array2D.transposeNewIndex cols (rows * cols))^[v] s → u = v := by
  have key : ∀ u v, u ≤ v → v < k →
      (Array2D.transposeNewIndex cols (rows * cols))^[u] s
        = (Array2D.transposeNewIndex cols (rows * cols))^[v] s → u = v := by
    intro u v huv hv h
    have : (Array2D.transposeNewIndex cols (rows * cols))^[u]
        ((Array2D.transposeNewIndex cols (rows * cols))^[v - u] s)
        = (Array2D.transposeNewIndex cols (rows * cols))^[u] s := by
      rw [← Function.iterate_add_apply, show u + (v - u) = v by omega]
      exact h.symm
    have hvu := tni_iterate_inj rows cols u
      (tni_iterate_lt cols (rows * cols) s hs _) hs this
    by_cases h0 : v - u = 0
    · omega
    · exact absurd hvu (hmin (v - u) (by omega) (by omega))
  intro u v hu hv h
  rcases le_or_lt u v with huv | huv
  · exact key u v huv hv h
  · exact (key v u (by omega) hu h.symm).symm

theorem transpose_fold_spec (rows cols : Nat) (d0 : List Nat) :
    ∀ (cnt s : Nat) (v : List Bool) (d : List Nat),
      s + cnt = rows * cols →
      v.length = rows * cols → d.length = rows * cols →
      (∀ i, i < rows * cols → (v.getD i false = true ↔
        ∃ s' u, s' < s ∧ (Array2D.transposeNewIndex cols (rows * cols))^[u] s' = i)) →
      (∀ i, i < rows * cols → v.getD i false = true →
        d.get? i = d0.get? (Array2D.transposeNewIndex cols (rows * cols) i)) →
      (∀ i, i < rows * cols → v.getD i false = false → d.get? i = d0.get? i) →
      ∃ V D, (List.range' s cnt).foldlM
          (fun (st : List Bool × List Nat) cycleStart =>
            if st.1.getD cycleStart false then some st
            else Array2D.transposeCycle cols (rows * cols) cycleStart
              (rows * cols + 1) cycleStart st.1 st.2) (v, d) = some (V, D) ∧
        D.length = rows * cols ∧
        (∀ i, i < rows * cols → (V.getD i false = true ↔
          ∃ s' u, s' < s + cnt ∧ (Array2D.transposeNewIndex cols (rows * cols))^[u] s' = i)) ∧
        (∀ i, i < rows * cols → V.getD i false = true →
          D.get? i = d0.get? (Array2D.transposeNewIndex cols (rows * cols) i)) ∧
        (∀ i, i < rows * cols → V.getD i false = false → D.get? i = d0.get? i) := by
  intro cnt
  induction cnt with
  | zero =>
    intro s v d hsum hv hd hiff hvis hunvis
    refine ⟨v, d, ?_, hd, hiff, hvis, hunvis⟩
    rw [List.range'_zero, List.foldlM_nil]
    rfl
  | succ n ih =>
    intro s v d hsum hv hd hiff hvis hunvis
    have hs : s < rows * cols := by omega
    rw [List.range'_succ, List.foldlM_cons]
    cases hvs : v.getD s false with
    | true =>
      -- the cycle through s was already processed: skip
      have hstep : (if (true : Bool) = true then some (v, d)
          else Array2D.transposeCycle cols (rows * cols) s
            (rows * cols + 1) s (v, d).1 (v, d).2) = some (v, d) := rfl
      rw [hstep, bindO_some]
      have hiff' : ∀ i, i < rows * cols → (v.getD i false = true ↔
          ∃ s' u, s' < s + 1 ∧ (Array2D.transposeNewIndex cols (rows * cols))^[u] s' = i) := by
        intro i hi
        rw [hiff i hi]
        constructor
        · rintro ⟨s', u, hs', hu⟩
          exact ⟨s', u, by omega, hu⟩
        · rintro ⟨s', u, hs', hu⟩
          rcases Nat.lt_or_ge s' s with h' | h'
          · exact ⟨s', u, h', hu⟩
          · have hs's : s' = s := by omega
            rw [hs's] at hu
            obtain ⟨s'', u'', hs'', hu''⟩ := (hiff s hs).mp hvs
            refine ⟨s'', u + u'', hs'', ?_⟩
            rw [Function.iterate_add_apply, hu'', hu]
      have := ih (s + 1) v d (by omega) hv hd hiff' hvis hunvis
      simpa [Nat.add_assoc, Nat.add_comm, Nat.add_left_comm] using this
    | false =>
      -- walk and permute the cycle through s
      obtain ⟨kk, hkk0, hkkmn, hkks⟩ := tni_exists_cycle rows cols s hs
      have hP : ∃ j, 0 < j ∧ (Array2D.transposeNewIndex cols (rows * cols))^[j] s = s :=
        ⟨kk, hkk0, hkks⟩
      have hk0 : 0 < Nat.find hP ∧
          (Array2D.transposeNewIndex cols (rows * cols))^[Nat.find hP] s = s :=
        Nat.find_spec hP
      have hkmn : Nat.find hP ≤ rows * cols := le_trans (Nat.find_min' hP ⟨hkk0, hkks⟩) hkkmn
      have hmin : ∀ j, 0 < j → j < Nat.find hP →
          (Array2D.transposeNewIndex cols (rows * cols))^[j] s ≠ s := by
        intro j hj0 hjk hje
        exact Nat.find_min hP hjk ⟨hj0, hje⟩
      have hdist := tni_orbit_distinct rows cols s (Nat.find hP) hs hk0.2 hmin
      obtain ⟨V, D, hrun, hVl, hDl, c1, c2, c3, c4, c5⟩ :=
        transposeCycle_spec rows cols s (Nat.find hP) hs hk0.1 hk0.2 hmin hdist
          (rows * cols + 1) 0 v d hk0.1 (by omega) hv hd
      rw [Function.iterate_zero_apply] at hrun
      have hstep : (if (false : Bool) = true then some (v, d)
          else Array2D.transposeCycle cols (rows * cols) s
            (rows * cols + 1) s (v, d).1 (v, d).2)
          = Array2D.transposeCycle cols (rows * cols) s (rows * cols + 1) s v d := rfl
      rw [hstep, hrun, bindO_some]
      -- the new state satisfies the invariant at s + 1
      have horbdec : ∀ i, (∃ u, u < Nat.find hP ∧
          (Array2D.transposeNewIndex cols (rows * cols))^[u] s = i) ∨
          (∀ u, u < Nat.find hP →
            (Array2D.transposeNewIndex cols (rows * cols))^[u] s ≠ i) := by
        intro i
        by_cases h : ∃ u, u < Nat.find hP ∧
            (Array2D.transposeNewIndex cols (rows * cols))^[u] s = i
        · exact Or.inl h
        · right
          intro u hu he
          exact h ⟨u, hu, he⟩
      have hsunvisited : ∀ x, (∃ u, (Array2D.transposeNewIndex cols (rows * cols))^[u] s = x) →
          v.getD x false = true → False := by
        -- if any orbit member of s were already visited, s itself would be visited
        rintro x ⟨u, hu⟩ hxv
        have hx : x < rows * cols := by
          rw [← hu]; exact tni_iterate_lt _ _ _ hs _
        obtain ⟨s'', u'', hs'', hu''⟩ := (hiff x hx).mp hxv
        obtain ⟨m, hm⟩ := tni_orbit_back cols (rows * cols) s (Nat.find hP) hk0.1 hk0.2 u
        have : (Array2D.transposeNewIndex cols (rows * cols))^[m + u''] s'' = s := by
          rw [Function.iterate_add_apply, hu'', ← hu, hm]
        have hvstrue : v.getD s false = true := (hiff s hs).mpr ⟨s'', m + u'', hs'', this⟩
        rw [hvs] at hvstrue
        cases hvstrue
      have hiff' : ∀ i, i < rows * cols → (V.getD i false = true ↔
          ∃ s' u, s' < s + 1 ∧ (Array2D.transposeNewIndex cols (rows * cols))^[u] s' = i) := by
        intro i hi
        rcases horbdec i with ⟨u, hu, hui⟩ | hno
        · constructor
          · intro
            exact ⟨s, u, by omega, hui⟩
          · intro
            rw [← hui]
            exact c4 u (by omega) hu
        · have h5 := c5 i (fun u _ hu he => hno u hu he.symm)
          rw [h5, hiff i hi]
          constructor
          · rintro ⟨s', u, hs', hu⟩
            exact ⟨s', u, by omega, hu⟩
          · rintro ⟨s', u, hs', hu⟩
            rcases Nat.lt_or_ge s' s with h' | h'
            · exact ⟨s', u, h', hu⟩
            · have hs's : s' = s := by omega
              rw [hs's] at hu
              have hured : (Array2D.transposeNewIndex cols (rows * cols))^[u % Nat.find hP] s = i := by
                rw [← tni_period cols (rows * cols) s (Nat.find hP) hk0.2 u, hu]
              exact absurd hured (hno _ (Nat.mod_lt _ hk0.1))
      have hvis' : ∀ i, i < rows * cols → V.getD i false = true →
          D.get? i = d0.get? (Array2D.transposeNewIndex cols (rows * cols) i) := by
        intro i hi hVi
        rcases horbdec i with ⟨u, hu, hui⟩ | hno
        · -- i is on the freshly processed cycle
          have hσi : Array2D.transposeNewIndex cols (rows * cols) i
              = (Array2D.transposeNewIndex cols (rows * cols))^[u + 1] s := by
            rw [← hui]
            exact (Function.iterate_succ_apply' _ _ _).symm
          have hσiunv : v.getD (Array2D.transposeNewIndex cols (rows * cols) i) false = false := by
            cases hcase : v.getD (Array2D.transposeNewIndex cols (rows * cols) i) false with
            | false => rfl
            | true =>
              exact absurd (hsunvisited _ ⟨u + 1, hσi.symm⟩ hcase) (fun f => f)
          have hσilt : Array2D.transposeNewIndex cols (rows * cols) i < rows * cols :=
            tni_lt _ _ _ hi
          rcases Nat.lt_or_ge (u + 1) (Nat.find hP) with hu1 | hu1
          · have hc1 := c1 u (by omega) hu1
            rw [hui] at hc1
            rw [hc1, ← hσi]
            exact hunvis _ hσilt hσiunv
          · have huk : u = Nat.find hP - 1 := by omega
            have hieq : i = (Array2D.transposeNewIndex cols (rows * cols))^[Nat.find hP - 1] s := by
              rw [← hui, huk]
            have hσis : Array2D.transposeNewIndex cols (rows * cols) i = s := by
              rw [hσi, show u + 1 = Nat.find hP by omega, hk0.2]
            rw [hσis, hieq, c2, Function.iterate_zero_apply]
            exact hunvis s hs hvs
        · -- i lies outside the cycle: the old invariant carries over
          have h3 := c3 i (fun u _ hu he => hno u hu he.symm)
          have h5 := c5 i (fun u _ hu he => hno u hu he.symm)
          rw [h3]
          rw [h5] at hVi
          exact hvis i hi hVi
      have hunvis' : ∀ i, i < rows * cols → V.getD i false = false →
          D.get? i = d0.get? i := by
        intro i hi hVi
        rcases horbdec i with ⟨u, hu, hui⟩ | hno
        · have := c4 u (by omega) hu
          rw [hui] at this
          rw [this] at hVi
          cases hVi
        · have h3 := c3 i (fun u _ hu he => hno u hu he.symm)
          have h5 := c5 i (fun u _ hu he => hno u hu he.symm)
          rw [h3]
          rw [h5] at hVi
          exact hunvis i hi hVi
      have := ih (s + 1) V D (by omega) hVl hDl hiff' hvis' hunvis'
      simpa [Nat.add_assoc, Nat.add_comm, Nat.add_left_comm] using this

theorem tni_corner (rows cols r c : Nat) (hr : r < rows) (hc : c < cols)
    (h : rows * c + r = rows * cols - 1) : c = cols - 1 ∧ r = rows - 1 := by
  have hx1 : rows * (c + 1) = rows * c + rows := by ring
  have hx2 : rows * cols ≤ rows * (c + 1) := by omega
  have hcle : cols ≤ c + 1 := Nat.le_of_mul_le_mul_left hx2 (by omega)
  have hceq : c = cols - 1 := by omega
  subst hceq
  have hx3 : rows * cols = rows * (cols - 1) + rows := by
    have hcols : cols = (cols - 1) + 1 := by omega
    conv_lhs => rw [hcols]
    ring
  exact ⟨rfl, by omega⟩

theorem tni_map (rows cols r c : Nat) (hr : r < rows) (hc : c < cols) :
    Array2D.transposeNewIndex cols (rows * cols) (rows * c + r) = cols * r + c := by
  have hub1 : rows * c + r + 1 ≤ rows * cols := by
    calc rows * c + r + 1 ≤ rows * c + rows := by omega
      _ = rows * (c + 1) := by ring
      _ ≤ rows * cols := Nat.mul_le_mul_left _ (by omega)
  have hub2 : cols * r + c + 1 ≤ rows * cols := by
    calc cols * r + c + 1 ≤ cols * r + cols := by omega
      _ = cols * (r + 1) := by ring
      _ ≤ cols * rows := Nat.mul_le_mul_left _ (by omega)
      _ = rows * cols := Nat.mul_comm _ _
  by_cases hedge : rows * c + r = rows * cols - 1
  · obtain ⟨hceq, hreq⟩ := tni_corner rows cols r c hr hc hedge
    rw [Array2D.transposeNewIndex, if_pos hedge, hceq, hreq]
    have hx : cols * rows = cols * (rows - 1) + cols := by
      have hrows : rows = (rows - 1) + 1 := by omega
      conv_lhs => rw [hrows]
      ring
    have hx2 : cols * rows = rows * cols := Nat.mul_comm _ _
    omega
  · have hn : ∃ n, rows * cols = n + 1 := ⟨rows * cols - 1, by omega⟩
    obtain ⟨n, hn⟩ := hn
    rw [Array2D.transposeNewIndex, if_neg hedge]
    have key : cols * (rows * c + r) = c * n + (cols * r + c) := by
      calc cols * (rows * c + r) = c * (rows * cols) + cols * r := by ring
        _ = c * (n + 1) + cols * r := by rw [hn]
        _ = c * n + (cols * r + c) := by ring
    have hne2 : cols * r + c ≠ rows * cols - 1 := by
      intro hh
      obtain ⟨hr', hc'⟩ := tni_corner cols rows c r hc hr
        (by have hcomm : cols * rows = rows * cols := Nat.mul_comm _ _; omega)
      apply hedge
      rw [hc', hr']
      have hx : rows * cols = rows * (cols - 1) + rows := by
        have hcols : cols = (cols - 1) + 1 := by omega
        conv_lhs => rw [hcols]
        ring
      omega
    rw [key, show rows * cols - 1 = n from by omega, Nat.add_comm (c * n),
      Nat.add_mul_mod_self_right]
    exact Nat.mod_eq_of_lt (by omega)

theorem transpose_spec (a : Array2D) (h : a.wellFormed) :
    ∃ D, a.transpose = some (Array2D.mk a.cols a.rows D) ∧
      D.length = a.rows * a.cols ∧
      ∀ i, i < a.rows * a.cols →
        D.get? i = a.data.get? (Array2D.transposeNewIndex a.cols (a.rows * a.cols) i) := by
  obtain ⟨V, D, hrun, hDl, hiff, hvis, hunvis⟩ :=
    transpose_fold_spec a.rows a.cols a.data (a.rows * a.cols) 0
      (List.replicate (a.rows * a.cols) false) a.data (by omega)
      (by simp) h
      (by
        intro i hi
        rw [getD_replicate_false]
        constructor
        · intro hh; cases hh
        · rintro ⟨s', u, hs', hu⟩; omega)
      (by
        intro i hi hvt
        rw [getD_replicate_false] at hvt
        cases hvt)
      (by intro i _ _; rfl)
  refine ⟨D, ?_, hDl, ?_⟩
  · rw [Array2D.transpose, List.range_eq_range', hrun, bindO_some]
  · intro i hi
    apply hvis i hi
    exact (hiff i hi).mpr ⟨i, 0, by omega, by simp⟩

/-- C7: `transpose()` produces the transposed layout — the element at (r, c)
moves to (c, r) — with the stored rows and cols swapped, and applying it
twice returns the original grid with its original shape. -/
theorem transpose_moves_cells_and_is_involutive (a : Array2D) (h : a.wellFormed) :
    ∃ b, a.transpose = some b ∧ b.rows = a.cols ∧ b.cols = a.rows ∧
      (∀ r c, r < a.rows → c < a.cols → b.get c r = a.get r c) ∧
      b.transpose = some a := by
  obtain ⟨D, hrun, hDl, hmap⟩ := transpose_spec a h
  refine ⟨⟨a.cols, a.rows, D⟩, hrun, rfl, rfl, ?_, ?_⟩
  · intro r c hr hc
    show D.get? (a.rows * c + r) = a.get r c
    have hlt : a.rows * c + r < a.rows * a.cols := by
      have h1 : a.rows * (c + 1) = a.rows * c + a.rows := by ring
      have h2 : a.rows * (c + 1) ≤ a.rows * a.cols := Nat.mul_le_mul_left _ (by omega)
      omega
    rw [hmap _ hlt, tni_map a.rows a.cols r c hr hc]
    rfl
  · have hb : (Array2D.mk a.cols a.rows D).wellFormed := by
      show D.length = a.cols * a.rows
      rw [hDl, Nat.mul_comm]
    obtain ⟨D2, hrun2, hD2l, hmap2⟩ := transpose_spec ⟨a.cols, a.rows, D⟩ hb
    rw [hrun2]
    have hdata : D2 = a.data := by
      apply List.ext_get?
      intro n
      by_cases hn : n < a.cols * a.rows
      · have hστ := tni_inverse a.cols a.rows n hn
        have hn' : n < a.rows * a.cols := by rw [Nat.mul_comm]; exact hn
        have hτlt : Array2D.transposeNewIndex a.rows (a.cols * a.rows) n
            < a.cols * a.rows := tni_lt _ _ _ hn
        have hτlt' : Array2D.transposeNewIndex a.rows (a.cols * a.rows) n
            < a.rows * a.cols := by
          have hcomm : a.cols * a.rows = a.rows * a.cols := Nat.mul_comm _ _
          omega
        rw [hmap2 n hn]
        show D.get? (Array2D.transposeNewIndex a.rows (a.cols * a.rows) n) = a.data.get? n
        rw [hmap _ hτlt']
        rw [show Array2D.transposeNewIndex a.cols (a.rows * a.cols)
            (Array2D.transposeNewIndex a.rows (a.cols * a.rows) n)
            = Array2D.transposeNewIndex a.cols (a.cols * a.rows)
              (Array2D.transposeNewIndex a.rows (a.cols * a.rows) n) from by
          rw [Nat.mul_comm a.rows a.cols]]
        rw [hστ]
      · have hD2l' : D2.length = a.cols * a.rows := hD2l
        have h1 : D2.get? n = none := by
          rw [List.get?_eq_none]
          omega
        have h2 : a.data.get? n = none := by
          rw [List.get?_eq_none, h]
          rw [Nat.mul_comm] at hn
          omega
        rw [h1, h2]
    rw [hdata]

theorem reverseSlice_length (l : List Nat) (start len : Nat) (l' : List Nat)
    (h : reverseSlice l start len = some l') : l'.length = l.length := by
  rw [reverseSlice] at h
  split at h
  · cases h
    rename_i hle
    simp [List.length_take, List.length_drop]
    omega
  · cases h

theorem fold_reverseSlice (cols bound : Nat) (idxs : List Nat)
    (hb : ∀ i ∈ idxs, i * cols + cols ≤ bound) :
    ∀ l : List Nat, l.length = bound →
      ∃ l', idxs.foldlM (fun d ri => reverseSlice d (ri * cols) cols) l = some l' ∧
        l'.length = bound := by
  induction idxs with
  | nil =>
    intro l hl
    exact ⟨l, rfl, hl⟩
  | cons x rest ih =>
    intro l hl
    have hx : x * cols + cols ≤ bound := hb x (List.mem_cons_self x rest)
    have hsome : reverseSlice l (x * cols) cols
        = some (l.take (x * cols) ++ (l.drop (x * cols) |>.take cols).reverse
            ++ l.drop (x * cols + cols)) := by
      rw [reverseSlice, if_pos (by omega)]
    obtain ⟨l', hl', hlen⟩ := ih (fun i hi => hb i (List.mem_cons_of_mem x hi)) _
      (reverseSlice_length l (x * cols) cols _ hsome ▸ hl)
    exact ⟨l', by rw [List.foldlM_cons, hsome, bindO_some, hl'], hlen⟩

theorem flipY_wf (a : Array2D) (h : a.wellFormed) :
    ∃ b, a.flip Axes.Y = some b ∧ b.rows = a.rows ∧ b.cols = a.cols ∧
      b.wellFormed := by
  obtain ⟨d', hd', hlen⟩ := fold_reverseSlice a.cols (a.rows * a.cols)
    (List.range a.rows)
    (by
      intro i hi
      have hilt : i < a.rows := List.mem_range.mp hi
      have : (i + 1) * a.cols ≤ a.rows * a.cols :=
        Nat.mul_le_mul_right _ (by omega)
      have hexp : (i + 1) * a.cols = i * a.cols + a.cols := by ring
      omega)
    a.data h
  refine ⟨{ a with data := d' }, ?_, rfl, rfl, hlen⟩
  rw [Array2D.flip]
  rw [hd', bindO_some]

theorem transpose_wf (a : Array2D) (h : a.wellFormed) :
    ∃ b, a.transpose = some b ∧ b.rows = a.cols ∧ b.cols = a.rows ∧
      b.wellFormed := by
  obtain ⟨D, hrun, hDl, -⟩ := transpose_spec a h
  refine ⟨⟨a.cols, a.rows, D⟩, hrun, rfl, rfl, ?_⟩
  show D.length = a.cols * a.rows
  rw [hDl, Nat.mul_comm]

theorem rotate90_one_wf (a : Array2D) (h : a.wellFormed) :
    ∃ b, a.rotate90 1 = some b ∧ b.wellFormed := by
  have hrot : a.rotate90 1 = (a.flip Axes.Y) >>= Array2D.transpose := rfl
  obtain ⟨b1, hb1, -, -, hw1⟩ := flipY_wf a h
  obtain ⟨b2, hb2, -, -, hw2⟩ := transpose_wf b1 hw1
  exact ⟨b2, by rw [hrot, hb1, bindO_some, hb2], hw2⟩

/-- C9: for a freshly constructed piece with `max_rotations = 3` and
`is_flippable = true`, four `change_orientation()` calls leave
`rotation_count = 0` and `has_flipped = true`, and eight calls set
`orientation_exhausted`. -/
theorem change_orientation_flip_then_exhaust (name : String) (orient : Array2D)
    (h : orient.wellFormed) :
    ∃ p4 p8,
      (PieceModel.new name orient 3 true).changeIter 4 = some p4 ∧
      p4.rotation_count = 0 ∧ p4.has_flipped = true ∧
      (PieceModel.new name orient 3 true).changeIter 8 = some p8 ∧
      p8.orientation_exhausted = true := by
  obtain ⟨o1, ho1, hw1⟩ := rotate90_one_wf orient h
  obtain ⟨o2, ho2, hw2⟩ := rotate90_one_wf o1 hw1
  obtain ⟨o3, ho3, hw3⟩ := rotate90_one_wf o2 hw2
  obtain ⟨o4, ho4, -, -, hw4⟩ := flipY_wf o3 hw3
  obtain ⟨o5, ho5, hw5⟩ := rotate90_one_wf o4 hw4
  obtain ⟨o6, ho6, hw6⟩ := rotate90_one_wf o5 hw5
  obtain ⟨o7, ho7, hw7⟩ := rotate90_one_wf o6 hw6
  refine ⟨⟨name, orient, o4, none, 3, true, 0, 0, true, false, false, false⟩,
    ⟨name, orient, o7, none, 3, true, 3, 0, true, true, false, false⟩,
    ?_, rfl, rfl, ?_, rfl⟩
  · simp [PieceModel.changeIter, PieceModel.change_orientation, PieceModel.rotate,
      PieceModel.flipPiece, PieceModel.new, ho1, ho2, ho3, ho4]
  · simp [PieceModel.changeIter, PieceModel.change_orientation, PieceModel.rotate,
      PieceModel.flipPiece, PieceModel.new, ho1, ho2, ho3, ho4, ho5, ho6, ho7]

/-- Witness for C7 on a concrete 2×3 grid. -/
theorem transpose_moves_cells_and_is_involutive_witness :
    ∃ b, (Array2D.mk 2 3 [0,1,2,3,4,5]).transpose = some b ∧
      b.rows = (Array2D.mk 2 3 [0,1,2,3,4,5]).cols ∧
      b.cols = (Array2D.mk 2 3 [0,1,2,3,4,5]).rows ∧
      (∀ r c, r < (Array2D.mk 2 3 [0,1,2,3,4,5]).rows →
        c < (Array2D.mk 2 3 [0,1,2,3,4,5]).cols →
        b.get c r = (Array2D.mk 2 3 [0,1,2,3,4,5]).get r c) ∧
      b.transpose = some (Array2D.mk 2 3 [0,1,2,3,4,5]) :=
  transpose_moves_cells_and_is_involutive (Array2D.mk 2 3 [0,1,2,3,4,5]) (by decide)

/-- Witness for C9 on the catalogue's "2x3 End Hole" piece. -/
theorem change_orientation_flip_then_exhaust_witness :
    ∃ p4 p8,
      (PieceModel.new "2x3 End Hole" (Array2D.mk 2 3 [1,1,0,1,1,1]) 3 true).changeIter 4
        = some p4 ∧
      p4.rotation_count = 0 ∧ p4.has_flipped = true ∧
      (PieceModel.new "2x3 End Hole" (Array2D.mk 2 3 [1,1,0,1,1,1]) 3 true).changeIter 8
        = some p8 ∧
      p8.orientation_exhausted = true :=
  change_orientation_flip_then_exhaust "2x3 End Hole"
    (Array2D.mk 2 3 [1,1,0,1,1,1]) (by decide)
